import Mathlib

/-!
Verification model of the Wikipedia storage and query system
(`src/mongo/wikipedia.py`).  The Python functions are shallowly embedded
as executable Lean definitions over `String` and `List Char`; machine
details that the claims do not touch (MongoDB driver, timestamps of type
`datetime`, logging, console IO) are modelled abstractly: timestamps as
`Nat` parameters, the document store as a list of stored documents with
`Nat` identities, and the interactive duplicate prompt as an explicit
`DupAction` argument.  All definitions are computable so that concrete
inputs evaluate by `decide` and `rfl`.

Scope note: character-level predicates model the ASCII behaviour of the
Python `str` methods and of the regular expressions used by the source
(`\w`, `\s`, `str.lower`, `str.strip`, `str.split`), which is exact for
ASCII input.
-/

namespace WikiModel

/-! ### Python string primitives -/

/-- The six whitespace characters recognised by Python `str.strip`,
`str.split()` and the regex class `\s` (ASCII). -/
def pyIsSpace (c : Char) : Bool :=
  c = ' ' || c = '\t' || c = '\n' || c = '\r' || c = '\x0b' || c = '\x0c'

/-- The regex class `\w` (ASCII): alphanumeric or underscore. -/
def pyIsWordChar (c : Char) : Bool :=
  c.isAlphanum || c = '_'

/-- Remove leading and trailing Python whitespace from a character list. -/
def listStrip (l : List Char) : List Char :=
  ((l.dropWhile pyIsSpace).reverse.dropWhile pyIsSpace).reverse

/-- Python `str.strip()`. -/
def pyStrip (s : String) : String :=
  String.mk (listStrip s.toList)

/-- Helper for `str.split()` with no separator: accumulate the current
word (reversed) and emit it at each whitespace character or at the end. -/
def splitWsAux : List Char → List Char → List String
  | [], acc => if acc.isEmpty then [] else [String.mk acc.reverse]
  | c :: rest, acc =>
    if pyIsSpace c then
      (if acc.isEmpty then [] else [String.mk acc.reverse]) ++ splitWsAux rest []
    else splitWsAux rest (c :: acc)

/-- Python `str.split()` with no separator: split on whitespace runs and
drop empty pieces. -/
def pySplitWords (s : String) : List String :=
  splitWsAux s.toList []

/-- Python `str.startswith`. -/
def strStartsWith (s p : String) : Bool :=
  p.toList.isPrefixOf s.toList

/-- Python `str.endswith`. -/
def strEndsWith (s p : String) : Bool :=
  s.toList.reverse.take p.toList.length = p.toList.reverse

/-- Python `c in s` for a single character. -/
def strContainsChar (s : String) (c : Char) : Bool :=
  s.toList.contains c

/-- Helper for `str.find`: index of the first position of `hay` at which
`needle` is a prefix, counting from `i`. -/
def findSubAux (needle : List Char) : List Char → Nat → Option Nat
  | [], i => if needle.isEmpty then some i else none
  | c :: rest, i =>
    if needle.isPrefixOf (c :: rest) then some i
    else findSubAux needle rest (i + 1)

/-- Python `hay.find(needle)`, with `none` standing for the return -1. -/
def findSub (hay needle : List Char) : Option Nat :=
  findSubAux needle hay 0

/-- Replace every maximal run of whitespace by a single underscore, the
effect of `re.sub(r"\s+", "_", s)`.  The flag records whether the previous
character belonged to a run already replaced. -/
def collapseWsAux : Bool → List Char → List Char
  | _, [] => []
  | prevSpace, c :: rest =>
    if pyIsSpace c then
      if prevSpace then collapseWsAux true rest
      else '_' :: collapseWsAux true rest
    else c :: collapseWsAux false rest

/-! ### Data model

The parsed document dictionary of `parse_markdown_content`.  The constant
`content_type` field and the `created_at` timestamp carry no logical
content and are omitted.  `sections` is an association list mirroring the
Python dict (insertion order, assignment to an existing key replaces the
value in place). -/

/-- The `section_data` dictionary built by `_add_section_to_document`.
In the source the `parent_section` and `subsections` keys are absent until
assigned; absence is modelled by `none` and `[]`. -/
structure SectionData where
  title : String
  content : String
  level : Nat
  word_count : Nat
  character_count : Nat
  parent_section : Option String
  subsections : List String
deriving DecidableEq

/-- An entry of the `section_hierarchy` list. -/
structure HierEntry where
  key : String
  title : String
  level : Nat
deriving DecidableEq

/-- The parsed document. -/
structure PDoc where
  metadata : List (String × String)
  query : Option String
  url : Option String
  format : Option String
  extracted_at : Option String
  summary : String
  sections : List (String × SectionData)
  section_hierarchy : List HierEntry
deriving DecidableEq

/-- The document as initialised at the top of `parse_markdown_content`. -/
def initDoc : PDoc :=
  { metadata := [], query := none, url := none, format := none,
    extracted_at := none, summary := "", sections := [],
    section_hierarchy := [] }

/-- Python dict assignment `m[k] = v` on an association list: replace the
value in place if the key is present, otherwise append. -/
def assocSet {β : Type} (m : List (String × β)) (k : String) (v : β) :
    List (String × β) :=
  if m.any (fun p => p.1 == k) then
    m.map (fun p => if p.1 == k then (k, v) else p)
  else m ++ [(k, v)]

/-- Python dict lookup `m.get(k)` on an association list. -/
def assocFind {β : Type} (m : List (String × β)) (k : String) : Option β :=
  (m.find? (fun p => p.1 == k)).map (fun p => p.2)

/-! ### Section key normaliser (`_normalize_section_key`) -/

/-- `_normalize_section_key`: lower-case, drop characters matching
`[^\w\s]`, then replace whitespace runs by single underscores. -/
def normalize_section_key (title : String) : String :=
  let lowered := title.toList.map Char.toLower
  let filtered := lowered.filter (fun c => pyIsWordChar c || pyIsSpace c)
  String.mk (collapseWsAux false filtered)

/-! ### Section attachment (`_add_section_to_document`) -/

/-- `_find_parent_section`: walk the hierarchy backwards and return the key
of the first entry whose level is strictly smaller. -/
def find_parent_section (hierarchy : List HierEntry) (currentLevel : Nat) :
    Option String :=
  match hierarchy.reverse.find? (fun e => e.level < currentLevel) with
  | some e => some e.key
  | none => none

/-- The `section_data` dictionary as built at the top of
`_add_section_to_document` (before parent handling). -/
def mkSectionData (title : String) (content : List String) (level : Nat) :
    SectionData :=
  let sectionContent := pyStrip (String.intercalate "\n" content)
  { title := title, content := sectionContent, level := level,
    word_count := (pySplitWords sectionContent).length,
    character_count := sectionContent.toList.length,
    parent_section := none, subsections := [] }

/-- Append `childKey` to the `subsections` list of the entry stored under
`parentKey`, if present (`if parent_key in document['sections']`). -/
def appendChildKey (sections : List (String × SectionData))
    (parentKey childKey : String) : List (String × SectionData) :=
  sections.map (fun p =>
    if p.1 == parentKey then
      (p.1, { p.2 with subsections := p.2.subsections ++ [childKey] })
    else p)

/-- `_add_section_to_document`.  The Python guard `if parent_key:` is
truthiness: it rejects both `None` and the empty string. -/
def add_section_to_document (doc : PDoc) (sectionTitle : String)
    (content : List String) (level : Nat) : PDoc :=
  let sectionKey := normalize_section_key sectionTitle
  let base := mkSectionData sectionTitle content level
  let step :=
    if 2 < level then
      match find_parent_section doc.section_hierarchy level with
      | some parentKey =>
        if parentKey ≠ "" then
          ({ base with parent_section := some parentKey },
           { doc with sections := appendChildKey doc.sections parentKey sectionKey })
        else (base, doc)
      | none => (base, doc)
    else (base, doc)
  { step.2 with
    sections := assocSet step.2.sections sectionKey step.1,
    section_hierarchy :=
      step.2.section_hierarchy ++ [{ key := sectionKey, title := sectionTitle, level := level }] }

/-! ### Document parser (`parse_markdown_content`)

The Python while loop advances the index by exactly one on every path, so
it is embedded as structural recursion on the list of remaining lines; the
lookahead `lines[i + 1]` becomes an access into the tail.  The access is
kept as a fallible `rest[0]?` guarded by the translated bound check
`i + 1 < len(lines)` (here `0 < rest.length`), with `none` standing for an
IndexError, so that totality is a theorem rather than a construction. -/

/-- State of the parse loop besides the document being built. -/
structure ParseState where
  doc : PDoc
  current_section : Option String
  current_content : List String
  separator_found : Bool
deriving DecidableEq

/-- Initial loop state. -/
def initState : ParseState :=
  { doc := initDoc, current_section := none, current_content := [],
    separator_found := false }

/-- The metadata branch body (source lines 94-115): locate `:**`, split
into key and value, store into `metadata` and promote well-known keys.
A `find` result of -1 is `none`; the guard `colon_pos > 2` rejects it. -/
def metadataUpdate (doc : PDoc) (line : String) : PDoc :=
  match findSub line.toList [':', '*', '*'] with
  | some colonPos =>
    if 2 < colonPos then
      let keyPart := (line.toList.drop 2).take (colonPos - 2)
      let value := String.mk (listStrip (line.toList.drop (colonPos + 3)))
      let key := String.mk (((listStrip keyPart).map Char.toLower).map
        (fun c => if c = ' ' then '_' else c))
      let d := { doc with metadata := assocSet doc.metadata key value }
      if key = "query" then { d with query := some value }
      else if key = "url" then { d with url := some value }
      else if key = "extract_format" then { d with format := some value }
      else if key = "extracted_on" then { d with extracted_at := some value }
      else d
    else doc
  | none => doc

/-- The regex `^(#{2,6})\s+(.+)$` applied to an already stripped line:
2 to 6 leading hash characters followed by at least one whitespace
character and then the title text.  Returns the hash count and the raw
title (the text after the whitespace run; on stripped input this matches
the greedy regex groups exactly, because a stripped line cannot end in
whitespace). -/
def headerMatch (line : String) : Option (Nat × String) :=
  let l := line.toList
  let hashes := l.takeWhile (fun c => c = '#')
  let m := hashes.length
  if 2 ≤ m ∧ m ≤ 6 then
    let rest := l.drop m
    let ws := rest.takeWhile pyIsSpace
    let title := rest.drop ws.length
    if ws ≠ [] ∧ title ≠ [] then some (m, String.mk title) else none
  else none

/-- The plain-text heading heuristic (source lines 144-160) for the
current stripped `line` with `rest` the raw lines after it.  `some true`
means the line is an inferred heading; `none` models the IndexError that
an unguarded `lines[i + 1]` access would raise, and is provably never
returned because the access sits behind the translated guard
`0 < rest.length`. -/
def inferredHeadingCheck (line : String) (rest : List String) : Option Bool :=
  if line.toList.length < 80 then
    if 0 < rest.length then
      match rest[0]? with
      | none => none
      | some nxt =>
        if (pyStrip nxt != "")
            && !strEndsWith line "." && !strEndsWith line "," && !strEndsWith line ";"
            && (pySplitWords line).length ≤ 8 then
          let nextFew := ((rest.take 3).map pyStrip).filter (fun s => s != "")
          some (!nextFew.isEmpty
            && (nextFew.take 2).any (fun s => strEndsWith s "."))
        else some false
    else some false
  else some false

/-- Flush the buffered content into either the summary or a new section
(the pattern of source lines 127-134 and 186-191).  The Python truthiness
test `elif current_section and current_content` rejects `None`, the empty
string and an empty buffer. -/
def flushSection (st : ParseState) (level : Nat) : ParseState :=
  match st.current_section with
  | some t =>
    if t = "summary" then
      if st.current_content.isEmpty then st
      else { st with doc := { st.doc with
        summary := pyStrip (String.intercalate "\n" st.current_content) } }
    else if t = "" then st
    else if st.current_content.isEmpty then st
    else { st with doc := add_section_to_document st.doc t st.current_content level }
  | none => st

/-- Same flush as used in the inferred-heading branch (source lines
163-170), which additionally resets the buffer inside the branches that
fire. -/
def flushSectionR (st : ParseState) (level : Nat) : ParseState :=
  match st.current_section with
  | some t =>
    if t = "summary" then
      if st.current_content.isEmpty then st
      else { st with
        doc := { st.doc with
          summary := pyStrip (String.intercalate "\n" st.current_content) },
        current_content := [] }
    else if t = "" then st
    else if st.current_content.isEmpty then st
    else { st with
      doc := add_section_to_document st.doc t st.current_content level,
      current_content := [] }
  | none => st

/-- Content collection (source lines 178-181): a falsy `current_section`
(`None` or the empty string) becomes `summary` before the line is
buffered. -/
def collectContent (st : ParseState) (line : String) : ParseState :=
  if line = "" then st
  else
    let cs :=
      (match st.current_section with
       | none => "summary"
       | some t => if t = "" then "summary" else t)
    { st with
      current_section := some cs,
      current_content := st.current_content ++ [line] }

/-- One iteration of the parse loop on the stripped current line, with
`rest` the remaining raw lines (used only for lookahead).  Every branch of
the Python loop ends in `i += 1`, so the step returns the next state;
`none` is the IndexError channel of `inferredHeadingCheck`. -/
def parseStep (l : String) (rest : List String) (st : ParseState) :
    Option ParseState :=
  let line := pyStrip l
  if strStartsWith line "#" then some st
  else if line = "---" then some { st with separator_found := true }
  else if !st.separator_found && strStartsWith line "**" && strContainsChar line ':' then
    some { st with doc := metadataUpdate st.doc line }
  else if !st.separator_found || line = "" then some st
  else
    match headerMatch line with
    | some (numHashes, rawTitle) =>
      some { flushSection st (numHashes - 1) with
        current_section := some (pyStrip rawTitle), current_content := [] }
    | none =>
      match inferredHeadingCheck line rest with
      | none => none
      | some true =>
        some { flushSectionR st 2 with current_section := some line }
      | some false => some (collectContent st line)

/-- The parse loop over the remaining lines. -/
def parseLoop : List String → ParseState → Option ParseState
  | [], st => some st
  | l :: rest, st =>
    match parseStep l rest st with
    | none => none
    | some st2 => parseLoop rest st2

/-- Python `content.split('\n')`: cut at every newline, keeping empty
pieces (so the result is always nonempty). -/
def splitLinesAux : List Char → List Char → List String
  | [], acc => [String.mk acc.reverse]
  | c :: rest, acc =>
    if c = '\n' then String.mk acc.reverse :: splitLinesAux rest []
    else splitLinesAux rest (c :: acc)

/-- The line list of the input text. -/
def splitLines (content : String) : List String :=
  splitLinesAux content.toList []

/-- `parse_markdown_content`: split on newlines, run the loop from the
initial state and flush the final section at level 2 (source lines
186-191). -/
def parse_markdown_content (content : String) : Option PDoc :=
  match parseLoop (splitLines content) initState with
  | none => none
  | some st => some (flushSection st 2).doc

/-! ### Statistics (`store_wikipedia_document`, source lines 296-303) -/

/-- The derived `statistics` dictionary. -/
structure DocumentStatistics where
  total_sections : Nat
  total_words : Nat
  total_characters : Nat
  hierarchy_depth : Nat
deriving DecidableEq

/-- The statistics block of `store_wikipedia_document`: section count, sum
of section word counts, summary length plus sum of section character
counts, and the maximum level over `section_hierarchy` with default 0. -/
def computeStatistics (doc : PDoc) : DocumentStatistics :=
  { total_sections := doc.sections.length,
    total_words := (doc.sections.map (fun p => p.2.word_count)).sum,
    total_characters := doc.summary.toList.length +
      (doc.sections.map (fun p => p.2.character_count)).sum,
    hierarchy_depth := (doc.section_hierarchy.map (fun e => e.level)).foldr max 0 }

/-! ### Document store model (`store_wikipedia_document` lines 311-348,
`_find_duplicate_documents`)

The MongoDB collection is a list of stored documents in insertion order;
`find_one` is the first list element matching the filter, `insert_one`
appends with a caller-supplied fresh identity, `replace_one` and
`delete_one` act by identity.  The `datetime.now()` timestamp is an
abstract `Nat` argument and the interactive prompt result is the explicit
`DupAction` argument (used only when duplicates exist and the call is
interactive, exactly as in the source). -/

/-- A document held by the store: identity, content, and the optional
`updated_at` timestamp. -/
structure StoredDoc where
  id : Nat
  content : PDoc
  updated_at : Option Nat
deriving DecidableEq

/-- The four duplicate-resolution answers of `_prompt_duplicate_action`. -/
inductive DupAction where
  | skip
  | add
  | update
  | overwrite
deriving DecidableEq

/-- Python `a or b` on optional strings: `a` unless it is falsy
(`None` or the empty string). -/
def pyOrOpt (a b : Option String) : Option String :=
  match a with
  | some s => if s = "" then b else some s
  | none => b

/-- Python truthiness filter on an optional string. -/
def pyTruthyOpt (a : Option String) : Option String :=
  match a with
  | some s => if s = "" then none else some s
  | none => none

/-- `_find_duplicate_documents`: first document whose `query` field equals
the truthy query value; if the query strategy finds nothing, first
document whose `url` field equals the truthy url value. -/
def find_duplicate_documents (store : List StoredDoc) (doc : PDoc) :
    List StoredDoc :=
  let queryValue := pyOrOpt doc.query (assocFind doc.metadata "query")
  let dups : List StoredDoc :=
    (match pyTruthyOpt queryValue with
     | some qv =>
       (match store.find? (fun d => d.content.query == some qv) with
        | some d => [d]
        | none => [])
     | none => [])
  if dups.isEmpty then
    let urlValue := pyOrOpt doc.url (assocFind doc.metadata "url")
    (match pyTruthyOpt urlValue with
     | some uv =>
       (match store.find? (fun d => d.content.url == some uv) with
        | some d => [d]
        | none => [])
     | none => [])
  else dups

/-- `collection.delete_one({'_id': i})`: remove the first document with
the given identity. -/
def deleteById : List StoredDoc → Nat → List StoredDoc
  | [], _ => []
  | d :: ds, i => if d.id = i then ds else d :: deleteById ds i

/-- `collection.replace_one({'_id': i}, doc)` with `updated_at` set to
`now`: the identity is preserved, the content replaced. -/
def replaceById (store : List StoredDoc) (i : Nat) (doc : PDoc) (now : Nat) :
    List StoredDoc :=
  store.map (fun d =>
    if d.id = i then { id := d.id, content := doc, updated_at := some now } else d)

/-- The duplicate-resolution and upsert logic of
`store_wikipedia_document` (source lines 311-348).  Returns the updated
store and the returned document identity (`none` models the `None`
return of the skip path). -/
def store_wikipedia_document (store : List StoredDoc) (doc : PDoc)
    (interactive : Bool) (action : DupAction) (now freshId : Nat) :
    List StoredDoc × Option Nat :=
  let existing := find_duplicate_documents store doc
  match existing with
  | [] => (store ++ [{ id := freshId, content := doc, updated_at := none }], some freshId)
  | e :: es =>
    if interactive then
      match action with
      | .skip => (store, none)
      | .overwrite =>
        (((e :: es).foldl (fun s d => deleteById s d.id) store)
          ++ [{ id := freshId, content := doc, updated_at := none }], some freshId)
      | .update => (replaceById store e.id doc now, some e.id)
      | .add => (store ++ [{ id := freshId, content := doc, updated_at := none }], some freshId)
    else (replaceById store e.id doc now, some e.id)

/-! ### Search highlighting (`_highlight_text`) -/

/-- Case-insensitive first occurrence of `needle` in `hay`, the model of
`re.search(re.escape(term), text, re.IGNORECASE)` (ASCII lowering). -/
def findSubCI (hay needle : List Char) : Option Nat :=
  findSubAux (needle.map Char.toLower) (hay.map Char.toLower) 0

/-- One pass of `re.sub((term), **\1**, excerpt, flags=IGNORECASE)` for a
literal term: wrap every non-overlapping case-insensitive occurrence,
left to right, keeping the original spelling.  The fuel argument bounds
the recursion by the list length. -/
def highlightAux (needle : List Char) : Nat → List Char → List Char
  | 0, l => l
  | _ + 1, [] => []
  | fuel + 1, c :: rest =>
    if !needle.isEmpty &&
        (needle.map Char.toLower).isPrefixOf ((c :: rest).map Char.toLower) then
      '*' :: '*' :: ((c :: rest).take needle.length ++ '*' :: '*' ::
        highlightAux needle fuel ((c :: rest).drop needle.length))
    else c :: highlightAux needle fuel rest

/-- Wrap every case-insensitive occurrence of `needle` in emphasis
markers. -/
def highlightAll (needle l : List Char) : List Char :=
  highlightAux needle l.length l

/-- `_highlight_text` with its `context_chars` parameter (the source
default is 150).  `max(0, a - b)` is natural subtraction. -/
def highlight_text (text searchTerm : String) (contextChars : Nat) : String :=
  if text = "" || searchTerm = "" then text
  else
    match findSubCI text.toList searchTerm.toList with
    | none =>
      if contextChars < text.toList.length then
        String.mk (text.toList.take contextChars) ++ "..."
      else text
    | some mstart =>
      let mend := mstart + searchTerm.toList.length
      let start := mstart - contextChars / 2
      let stop := min text.toList.length (mend + contextChars / 2)
      let excerpt := (text.toList.drop start).take (stop - start)
      let excerpt := if 0 < start then "...".toList ++ excerpt else excerpt
      let excerpt := if stop < text.toList.length then excerpt ++ "...".toList else excerpt
      String.mk (highlightAll searchTerm.toList excerpt)

/-! ### Basic lemmas about the parser -/

lemma metadataUpdate_sections (d : PDoc) (l : String) :
    (metadataUpdate d l).sections = d.sections := by
  simp only [metadataUpdate]
  repeat' split
  all_goals rfl

lemma metadataUpdate_hierarchy (d : PDoc) (l : String) :
    (metadataUpdate d l).section_hierarchy = d.section_hierarchy := by
  simp only [metadataUpdate]
  repeat' split
  all_goals rfl

lemma metadataUpdate_summary (d : PDoc) (l : String) :
    (metadataUpdate d l).summary = d.summary := by
  simp only [metadataUpdate]
  repeat' split
  all_goals rfl

/-- A line that does not start with a hash cannot match the explicit
heading regex.  Because the loop skips every line starting with a hash
before the regex is consulted, the explicit-heading branch of the parser
is unreachable. -/
lemma headerMatch_eq_none {line : String} (h : strStartsWith line "#" = false) :
    headerMatch line = none := by
  unfold headerMatch
  unfold strStartsWith at h
  cases hl : line.toList with
  | nil => simp [hl]
  | cons c cs =>
    rw [hl] at h
    have htl : "#".toList = ['#'] := rfl
    rw [htl] at h
    by_cases hc : c = '#'
    · subst hc
      simp [List.isPrefixOf] at h
    · simp [List.takeWhile_cons, hc]

/-- The lookahead access of the heading heuristic sits behind the bound
guard, so the IndexError channel is never taken. -/
lemma inferredHeadingCheck_isSome (line : String) (rest : List String) :
    (inferredHeadingCheck line rest).isSome := by
  unfold inferredHeadingCheck
  split
  · split
    · cases rest with
      | nil => simp at *
      | cons r rs => simp; split <;> simp
    · simp
  · simp

section ParseInvariant

variable {P : PDoc → Prop}

lemma flushSection_two_inv
    (hsum : ∀ d s, P d → P { d with summary := s })
    (hadd : ∀ d t c, P d → P (add_section_to_document d t c 2))
    (st : ParseState) (hp : P st.doc) : P (flushSection st 2).doc := by
  unfold flushSection
  split
  · split
    · split
      · exact hp
      · exact hsum st.doc _ hp
    · split
      · exact hp
      · split
        · exact hp
        · exact hadd st.doc _ _ hp
  · exact hp

lemma flushSectionR_two_inv
    (hsum : ∀ d s, P d → P { d with summary := s })
    (hadd : ∀ d t c, P d → P (add_section_to_document d t c 2))
    (st : ParseState) (hp : P st.doc) : P (flushSectionR st 2).doc := by
  unfold flushSectionR
  split
  · split
    · split
      · exact hp
      · exact hsum st.doc _ hp
    · split
      · exact hp
      · split
        · exact hp
        · exact hadd st.doc _ _ hp
  · exact hp

lemma parseStep_inv
    (hmeta : ∀ d l, P d → P (metadataUpdate d l))
    (hsum : ∀ d s, P d → P { d with summary := s })
    (hadd : ∀ d t c, P d → P (add_section_to_document d t c 2))
    (l : String) (rest : List String) (st st2 : ParseState)
    (h : parseStep l rest st = some st2) (hp : P st.doc) : P st2.doc := by
  simp only [parseStep] at h
  by_cases h1 : strStartsWith (pyStrip l) "#" = true
  · rw [if_pos h1] at h; cases h; exact hp
  · have h1f : strStartsWith (pyStrip l) "#" = false := by
      revert h1; cases strStartsWith (pyStrip l) "#" <;> simp
    rw [if_neg h1] at h
    split at h
    · cases h; exact hp
    · split at h
      · cases h; exact hmeta st.doc _ hp
      · split at h
        · cases h; exact hp
        · split at h
          · -- explicit-heading branch: contradiction, line starts with a hash
            next numHashes rawTitle heq =>
            rw [headerMatch_eq_none h1f] at heq
            cases heq
          · split at h
            · cases h
            · cases h
              exact flushSectionR_two_inv hsum hadd st hp
            · cases h
              unfold collectContent
              split
              · exact hp
              · exact hp

lemma parseLoop_inv
    (hmeta : ∀ d l, P d → P (metadataUpdate d l))
    (hsum : ∀ d s, P d → P { d with summary := s })
    (hadd : ∀ d t c, P d → P (add_section_to_document d t c 2)) :
    ∀ (lines : List String) (st st2 : ParseState),
      parseLoop lines st = some st2 → P st.doc → P st2.doc := by
  intro lines
  induction lines with
  | nil =>
    intro st st2 h hp
    cases h
    exact hp
  | cons l rest ih =>
    intro st st2 h hp
    unfold parseLoop at h
    cases hstep : parseStep l rest st with
    | none => rw [hstep] at h; cases h
    | some st1 =>
      rw [hstep] at h
      exact ih st1 st2 h (parseStep_inv hmeta hsum hadd l rest st st1 hstep hp)

/-- Any property preserved by the three document mutations of the live
parse loop (metadata update, summary assignment, level-2 section
attachment) holds for every parse result. -/
lemma parse_inv
    (hmeta : ∀ d l, P d → P (metadataUpdate d l))
    (hsum : ∀ d s, P d → P { d with summary := s })
    (hadd : ∀ d t c, P d → P (add_section_to_document d t c 2))
    (hinit : P initDoc) :
    ∀ (content : String) (doc : PDoc),
      parse_markdown_content content = some doc → P doc := by
  intro content doc h
  unfold parse_markdown_content at h
  cases hloop : parseLoop (splitLines content) initState with
  | none => rw [hloop] at h; cases h
  | some st =>
    rw [hloop] at h
    cases h
    exact flushSection_two_inv hsum hadd st
      (parseLoop_inv hmeta hsum hadd _ initState st hloop hinit)

end ParseInvariant

/-! ### Lemmas about `assocSet` and `_add_section_to_document` -/

lemma assocSet_map_fst {β : Type} (m : List (String × β)) (k : String) (v : β) :
    (assocSet m k v).map Prod.fst =
      if m.any (fun p => p.1 == k) then m.map Prod.fst
      else m.map Prod.fst ++ [k] := by
  unfold assocSet
  split
  · rw [List.map_map]
    refine List.map_congr_left ?_
    intro p _
    by_cases hk : (p.1 == k) = true
    · rw [Function.comp_apply, if_pos hk]
      exact (beq_iff_eq.mp hk).symm
    · rw [Function.comp_apply, if_neg hk]
  · simp

lemma mem_assocSet {β : Type} {m : List (String × β)} {k : String} {v : β}
    {p : String × β} (h : p ∈ assocSet m k v) : p.2 = v ∨ p ∈ m := by
  unfold assocSet at h
  split at h
  · rcases List.mem_map.mp h with ⟨q, hq, hqp⟩
    by_cases hk : (q.1 == k) = true
    · rw [if_pos hk] at hqp
      left; rw [← hqp]
    · rw [if_neg hk] at hqp
      right; rw [← hqp]; exact hq
  · rcases List.mem_append.mp h with hq | hq
    · right; exact hq
    · left; rcases List.mem_singleton.mp hq with rfl; rfl

lemma find?_assocSet_replace {β : Type} (m : List (String × β)) (k : String) (v : β)
    (hany : m.any (fun p => p.1 == k) = true) :
    (m.map (fun p => if p.1 == k then (k, v) else p)).find? (fun p => p.1 == k)
      = some (k, v) := by
  induction m with
  | nil => simp at hany
  | cons p m ih =>
    by_cases hk : (p.1 == k) = true
    · rw [List.map_cons, if_pos hk]
      rw [List.find?_cons_of_pos _ (by simp)]
    · have hany2 : m.any (fun p => p.1 == k) = true := by
        rcases List.any_eq_true.mp hany with ⟨q, hq, hqk⟩
        rcases List.mem_cons.mp hq with rfl | hq
        · exact absurd hqk hk
        · exact List.any_eq_true.mpr ⟨q, hq, hqk⟩
      rw [List.map_cons, if_neg hk]
      rw [List.find?_cons_of_neg _ (by simpa using hk)]
      exact ih hany2

lemma assocFind_assocSet {β : Type} (m : List (String × β)) (k : String) (v : β) :
    assocFind (assocSet m k v) k = some v := by
  unfold assocFind assocSet
  by_cases hany : m.any (fun p => p.1 == k) = true
  · rw [if_pos hany, find?_assocSet_replace m k v hany]
    rfl
  · rw [if_neg hany, List.find?_append]
    have hnone : m.find? (fun p => p.1 == k) = none :=
      List.find?_eq_none.mpr (fun x hx hxk => hany (List.any_eq_true.mpr ⟨x, hx, hxk⟩))
    rw [hnone]
    simp [List.find?]

lemma appendChildKey_map_fst (m : List (String × SectionData)) (pk ck : String) :
    (appendChildKey m pk ck).map Prod.fst = m.map Prod.fst := by
  unfold appendChildKey
  rw [List.map_map]
  refine List.map_congr_left ?_
  intro p _
  by_cases hk : (p.1 == pk) = true
  · rw [Function.comp_apply, if_pos hk]
  · rw [Function.comp_apply, if_neg hk]

lemma mem_appendChildKey {m : List (String × SectionData)} {pk ck : String}
    {p : String × SectionData} (h : p ∈ appendChildKey m pk ck) :
    ∃ q ∈ m, p.1 = q.1 ∧ p.2.level = q.2.level := by
  unfold appendChildKey at h
  rcases List.mem_map.mp h with ⟨q, hq, hqp⟩
  refine ⟨q, hq, ?_⟩
  by_cases hk : (q.1 == pk) = true
  · rw [if_pos hk] at hqp
    rw [← hqp]
    exact ⟨rfl, rfl⟩
  · rw [if_neg hk] at hqp
    rw [← hqp]
    exact ⟨rfl, rfl⟩

/-- `_add_section_to_document` at level 2 skips the parent logic
entirely. -/
lemma add_section_two (d : PDoc) (t : String) (c : List String) :
    add_section_to_document d t c 2 =
      { d with
        sections := assocSet d.sections (normalize_section_key t) (mkSectionData t c 2),
        section_hierarchy := d.section_hierarchy ++
          [{ key := normalize_section_key t, title := t, level := 2 }] } := by
  simp [add_section_to_document]

/-- `_add_section_to_document` appends exactly one hierarchy entry,
unconditionally, whatever the level, the collision situation or the
content. -/
lemma add_section_hierarchy (d : PDoc) (t : String) (c : List String) (lvl : Nat) :
    (add_section_to_document d t c lvl).section_hierarchy =
      d.section_hierarchy ++
        [{ key := normalize_section_key t, title := t, level := lvl }] := by
  simp only [add_section_to_document]
  repeat' split
  all_goals rfl

/-! ### Shared concrete sample -/

/-- A small input: separator, one inferred heading, one content line. -/
def sampleContent : String := "---\nT\nBody one."

/-- The document that `parse_markdown_content` produces on
`sampleContent`. -/
def sampleDoc : PDoc :=
  { metadata := [], query := none, url := none, format := none,
    extracted_at := none, summary := "",
    sections := [("t",
      { title := "T", content := "Body one.", level := 2, word_count := 2,
        character_count := 9, parent_section := none, subsections := [] })],
    section_hierarchy := [{ key := "t", title := "T", level := 2 }] }

lemma sample_parse : parse_markdown_content sampleContent = some sampleDoc := by
  decide

/-! ### Claim C1 -/

/-- C1: every section stored in the `sections` mapping of a parsed
document, and every `section_hierarchy` entry, has level at least 2 (the
live attachment sites of `parse_markdown_content` always pass level 2;
the explicit-heading branch that could pass a smaller level is
unreachable because lines starting with a hash are skipped first). -/
theorem claim1_sections_level (content : String) (doc : PDoc)
    (h : parse_markdown_content content = some doc) :
    (∀ p ∈ doc.sections, 2 ≤ p.2.level) ∧
    (∀ e ∈ doc.section_hierarchy, 2 ≤ e.level) := by
  have key := parse_inv
    (P := fun d => (∀ p ∈ d.sections, p.2.level = 2) ∧
      (∀ e ∈ d.section_hierarchy, e.level = 2))
    (fun d l hp => ⟨by rw [metadataUpdate_sections]; exact hp.1,
                    by rw [metadataUpdate_hierarchy]; exact hp.2⟩)
    (fun d s hp => ⟨hp.1, hp.2⟩)
    (fun d t c hp => by
      rw [add_section_two]
      refine ⟨?_, ?_⟩
      · intro p hmem
        rcases mem_assocSet hmem with hv | hmem2
        · rw [hv]; rfl
        · exact hp.1 p hmem2
      · intro e hmem
        rcases List.mem_append.mp hmem with hmem2 | hmem2
        · exact hp.2 e hmem2
        · rcases List.mem_singleton.mp hmem2 with rfl; rfl)
    (⟨fun p hp => by simp [initDoc] at hp, fun e he => by simp [initDoc] at he⟩)
    content doc h
  exact ⟨fun p hp => le_of_eq (key.1 p hp).symm,
         fun e he => le_of_eq (key.2 e he).symm⟩

/-- C1 witness: the theorem applied to the concrete sample input. -/
theorem claim1_witness :
    (∀ p ∈ sampleDoc.sections, 2 ≤ p.2.level) ∧
    (∀ e ∈ sampleDoc.section_hierarchy, 2 ≤ e.level) :=
  claim1_sections_level sampleContent sampleDoc sample_parse

/-! ### Claim C2 -/

/-- C2 counterexample: the normalizer turns leading and trailing
whitespace runs into underscores, so the claimed value
`multiple_spaces` is wrong, and it keeps underscores even though they
are not alphanumeric. -/
theorem claim2_counterexample :
    normalize_section_key "  Multiple   Spaces " = "_multiple_spaces_" ∧
    normalize_section_key "  Multiple   Spaces " ≠ "multiple_spaces" ∧
    normalize_section_key "a_b" = "a_b" := by
  refine ⟨by decide, by decide, by decide⟩

lemma collapseWsAux_wordChars :
    ∀ (b : Bool) (l : List Char),
      (∀ c ∈ l, (pyIsWordChar c || pyIsSpace c) = true) →
      ∀ c ∈ collapseWsAux b l, pyIsWordChar c = true := by
  intro b l
  induction l generalizing b with
  | nil =>
    intro _ c hc
    simp [collapseWsAux] at hc
  | cons a l ih =>
    intro hall c hc
    have hall2 : ∀ c ∈ l, (pyIsWordChar c || pyIsSpace c) = true :=
      fun c hc => hall c (List.mem_cons_of_mem _ hc)
    unfold collapseWsAux at hc
    by_cases ha : pyIsSpace a = true
    · rw [if_pos ha] at hc
      cases b with
      | true => exact ih true hall2 c (by simpa using hc)
      | false =>
        rcases List.mem_cons.mp (by simpa using hc) with rfl | hc2
        · decide
        · exact ih true hall2 c hc2
    · rw [if_neg ha] at hc
      rcases List.mem_cons.mp hc with rfl | hc2
      · have hw := hall c (List.mem_cons_self _ _)
        simp only [Bool.or_eq_true] at hw
        rcases hw with hw2 | hw2
        · exact hw2
        · exact absurd hw2 ha
      · exact ih false hall2 c hc2

/-- C2 (amended): the normalizer lower-cases, strips every character that
is neither a word character (alphanumeric or underscore) nor whitespace,
and replaces each maximal whitespace run, including leading and trailing
runs, with a single underscore; it is total, its output consists of word
characters only, and `normalize("  Multiple   Spaces ")` is
`_multiple_spaces_`. -/
theorem claim2_normalizer :
    normalize_section_key "Early History!" = "early_history" ∧
    normalize_section_key "  Multiple   Spaces " = "_multiple_spaces_" ∧
    ∀ t : String, ((normalize_section_key t).toList.all pyIsWordChar) = true := by
  refine ⟨by decide, by decide, ?_⟩
  intro t
  rw [List.all_eq_true]
  intro c hc
  exact collapseWsAux_wordChars false _
    (fun c hc => (List.mem_filter.mp hc).2) c hc

/-! ### Claim C3 -/

/-- Modelled from the spec (amended wording of the parent rule): the
parent recorded for a new section is the key of the nearest preceding
strictly-smaller-level hierarchy entry, provided the level exceeds 2 and
that key is nonempty; otherwise no parent is recorded. -/
def nearestSmallerParent (hierarchy : List HierEntry) (level : Nat) :
    Option String :=
  if 2 < level then
    match find_parent_section hierarchy level with
    | some pk => if pk ≠ "" then some pk else none
    | none => none
  else none

/-- C3 counterexample: a level-2 heading whose title normalizes to the
empty key followed by a level-3 section.  The nearest preceding
strictly-smaller-level entry exists and has key `""`, but the stored
section records no parent, because the Python truthiness guard
`if parent_key:` rejects the empty string. -/
theorem claim3_counterexample :
    find_parent_section
      (add_section_to_document initDoc "!!!" ["x."] 2).section_hierarchy 3
      = some "" ∧
    (assocFind
      (add_section_to_document
        (add_section_to_document initDoc "!!!" ["x."] 2) "Child" ["y."] 3).sections
      "child").map (fun s => s.parent_section) = some none := by
  refine ⟨by decide, by decide⟩

/-- C3 (amended): a section attached at level above 2 records as parent
the key of the nearest preceding strictly-smaller-level hierarchy entry
whenever that key is nonempty, and records no parent when the key is the
empty string or no such entry exists; sections at level 2 or below record
no parent.  The concrete chain at levels [2,3,3,4,2] gives the level-4
section the second level-3 section as parent and the final level-2
section no parent. -/
theorem claim3_parent_resolution :
    (∀ (d : PDoc) (t : String) (c : List String) (lvl : Nat),
      (assocFind (add_section_to_document d t c lvl).sections
        (normalize_section_key t)).map (fun s => s.parent_section)
        = some (nearestSmallerParent d.section_hierarchy lvl)) ∧
    ((assocFind
        (add_section_to_document
          (add_section_to_document
            (add_section_to_document
              (add_section_to_document
                (add_section_to_document initDoc "A" ["a."] 2)
                "B" ["b."] 3)
              "C" ["c."] 3)
            "D" ["d."] 4)
          "E" ["e."] 2).sections "d").map (fun s => s.parent_section)
      = some (some "c") ∧
     (assocFind
        (add_section_to_document
          (add_section_to_document
            (add_section_to_document
              (add_section_to_document
                (add_section_to_document initDoc "A" ["a."] 2)
                "B" ["b."] 3)
              "C" ["c."] 3)
            "D" ["d."] 4)
          "E" ["e."] 2).sections "e").map (fun s => s.parent_section)
      = some none) := by
  refine ⟨?_, by decide, by decide⟩
  intro d t c lvl
  simp only [add_section_to_document, nearestSmallerParent]
  split
  · split
    · split
      · rw [assocFind_assocSet]
        rfl
      · rw [assocFind_assocSet]
        rfl
    · rw [assocFind_assocSet]
      rfl
  · rw [assocFind_assocSet]
    rfl

/-! ### Claim C4 -/

lemma mem_map_fst_iff_any {β : Type} (m : List (String × β)) (k : String) :
    k ∈ m.map Prod.fst ↔ (m.any fun p => p.1 == k) = true := by
  rw [List.any_eq_true, List.mem_map]
  constructor
  · rintro ⟨p, hp, hpk⟩
    exact ⟨p, hp, beq_iff_eq.mpr hpk⟩
  · rintro ⟨p, hp, hpk⟩
    exact ⟨p, hp, beq_iff_eq.mp hpk⟩

/-- The C4 parse invariant: section keys are distinct and a key is stored
in `sections` exactly when some hierarchy entry carries it. -/
def KeysInv (d : PDoc) : Prop :=
  (d.sections.map Prod.fst).Nodup ∧
  ∀ k, k ∈ d.sections.map Prod.fst ↔ k ∈ d.section_hierarchy.map HierEntry.key

lemma keysInv_parse (content : String) (doc : PDoc)
    (h : parse_markdown_content content = some doc) : KeysInv doc := by
  refine parse_inv (P := KeysInv) ?_ ?_ ?_ ?_ content doc h
  · intro d l hp
    refine ⟨?_, ?_⟩
    · rw [metadataUpdate_sections]; exact hp.1
    · intro k
      rw [metadataUpdate_sections, metadataUpdate_hierarchy]
      exact hp.2 k
  · intro d s hp
    exact hp
  · intro d t c hp
    rw [add_section_two]
    by_cases hany : (d.sections.any fun p => p.1 == normalize_section_key t) = true
    · refine ⟨?_, ?_⟩
      · show (List.map Prod.fst (assocSet d.sections _ _)).Nodup
        rw [assocSet_map_fst, if_pos hany]
        exact hp.1
      · intro k
        show k ∈ List.map Prod.fst (assocSet d.sections _ _) ↔
          k ∈ List.map HierEntry.key (d.section_hierarchy ++ [_])
        rw [assocSet_map_fst, if_pos hany, List.map_append]
        constructor
        · intro hk
          exact List.mem_append_left _ ((hp.2 k).mp hk)
        · intro hk
          rcases List.mem_append.mp hk with hk2 | hk2
          · exact (hp.2 k).mpr hk2
          · rcases List.mem_singleton.mp hk2 with rfl
            exact (mem_map_fst_iff_any _ _).mpr hany
    · have hnotin : normalize_section_key t ∉ d.sections.map Prod.fst :=
        fun hk => hany ((mem_map_fst_iff_any _ _).mp hk)
      refine ⟨?_, ?_⟩
      · show (List.map Prod.fst (assocSet d.sections _ _)).Nodup
        rw [assocSet_map_fst, if_neg hany, List.nodup_append]
        refine ⟨hp.1, List.nodup_singleton _, ?_⟩
        intro x hx hx2
        rcases List.mem_singleton.mp hx2 with rfl
        exact hnotin hx
      · intro k
        show k ∈ List.map Prod.fst (assocSet d.sections _ _) ↔
          k ∈ List.map HierEntry.key (d.section_hierarchy ++ [_])
        rw [assocSet_map_fst, if_neg hany, List.map_append]
        constructor
        · intro hk
          rcases List.mem_append.mp hk with hk2 | hk2
          · exact List.mem_append_left _ ((hp.2 k).mp hk2)
          · rcases List.mem_singleton.mp hk2 with rfl
            exact List.mem_append_right _ (by simp)
        · intro hk
          rcases List.mem_append.mp hk with hk2 | hk2
          · exact List.mem_append_left _ ((hp.2 k).mpr hk2)
          · rcases List.mem_singleton.mp hk2 with rfl
            exact List.mem_append_right _ (by simp)
  · refine ⟨by simp [initDoc], ?_⟩
    intro k
    simp [initDoc]

/-- C4: a key collision makes the later section overwrite the earlier
entry in `sections` while both headings stay in `section_hierarchy`; and
for every parse result the hierarchy is at least as long as the sections
mapping, with equality when the hierarchy keys are collision-free. -/
theorem claim4_collision_hierarchy :
    (assocFind
        (add_section_to_document
          (add_section_to_document initDoc "Early History" ["one."] 2)
          "Early, History!" ["two."] 2).sections "early_history"
      = some (mkSectionData "Early, History!" ["two."] 2) ∧
     (add_section_to_document
        (add_section_to_document initDoc "Early History" ["one."] 2)
        "Early, History!" ["two."] 2).section_hierarchy.length = 2 ∧
     (add_section_to_document
        (add_section_to_document initDoc "Early History" ["one."] 2)
        "Early, History!" ["two."] 2).sections.length = 1) ∧
    ∀ (content : String) (doc : PDoc),
      parse_markdown_content content = some doc →
        doc.sections.length ≤ doc.section_hierarchy.length ∧
        ((doc.section_hierarchy.map HierEntry.key).Nodup →
          doc.sections.length = doc.section_hierarchy.length) := by
  refine ⟨⟨by decide, by decide, by decide⟩, ?_⟩
  intro content doc h
  obtain ⟨hnd, hiff⟩ := keysInv_parse content doc h
  have hsub : (doc.sections.map Prod.fst).toFinset ⊆
      (doc.section_hierarchy.map HierEntry.key).toFinset := by
    intro x hx
    rw [List.mem_toFinset] at hx ⊢
    exact (hiff x).mp hx
  have hlen1 : doc.sections.length = (doc.sections.map Prod.fst).length :=
    (List.length_map _ _).symm
  have hlen2 : doc.section_hierarchy.length =
      (doc.section_hierarchy.map HierEntry.key).length :=
    (List.length_map _ _).symm
  refine ⟨?_, ?_⟩
  · calc doc.sections.length
        = (doc.sections.map Prod.fst).toFinset.card := by
          rw [hlen1, List.toFinset_card_of_nodup hnd]
      _ ≤ (doc.section_hierarchy.map HierEntry.key).toFinset.card :=
          Finset.card_le_card hsub
      _ ≤ (doc.section_hierarchy.map HierEntry.key).length :=
          List.toFinset_card_le _
      _ = doc.section_hierarchy.length := hlen2.symm
  · intro hnd2
    have hset : (doc.sections.map Prod.fst).toFinset =
        (doc.section_hierarchy.map HierEntry.key).toFinset := by
      ext x
      rw [List.mem_toFinset, List.mem_toFinset]
      exact hiff x
    calc doc.sections.length
        = (doc.sections.map Prod.fst).toFinset.card := by
          rw [hlen1, List.toFinset_card_of_nodup hnd]
      _ = (doc.section_hierarchy.map HierEntry.key).toFinset.card := by rw [hset]
      _ = (doc.section_hierarchy.map HierEntry.key).length :=
          List.toFinset_card_of_nodup hnd2
      _ = doc.section_hierarchy.length := hlen2.symm

/-- C4 witness: the theorem applied to the concrete sample input, whose
single hierarchy key is trivially collision-free. -/
theorem claim4_witness :
    sampleDoc.sections.length ≤ sampleDoc.section_hierarchy.length ∧
    sampleDoc.sections.length = sampleDoc.section_hierarchy.length := by
  have h := claim4_collision_hierarchy.2 sampleContent sampleDoc sample_parse
  exact ⟨h.1, h.2 (by decide)⟩

/-! ### Claim C5 -/

lemma le_foldr_max (l : List Nat) : ∀ x ∈ l, x ≤ l.foldr max 0 := by
  induction l with
  | nil => intro x hx; cases hx
  | cons a l ih =>
    intro x hx
    simp only [List.foldr]
    rcases List.mem_cons.mp hx with rfl | hx2
    · exact le_max_left _ _
    · exact le_trans (ih x hx2) (le_max_right _ _)

lemma foldr_max_mem (l : List Nat) : l.foldr max 0 = 0 ∨ l.foldr max 0 ∈ l := by
  induction l with
  | nil => left; rfl
  | cons a l ih =>
    simp only [List.foldr]
    rcases max_choice a (l.foldr max 0) with h | h
    · right; rw [h]; exact List.mem_cons_self _ _
    · rcases ih with h2 | h2
      · left; rw [h, h2]
      · right; rw [h]; exact List.mem_cons_of_mem _ h2

/-- The document of the statistics test: summary `a b c` and one section
with content `d e`, built through the section-attachment routine. -/
def statsSampleDoc : PDoc :=
  add_section_to_document { initDoc with summary := "a b c" } "Sec" ["d e"] 2

/-- C5 counterexample: for summary `a b c` and one section `d e`,
`total_words` is 2 and not the claimed 5, because only section word
counts are summed and summary words are not counted. -/
theorem claim5_counterexample :
    (computeStatistics statsSampleDoc).total_words = 2 ∧
    (computeStatistics statsSampleDoc).total_words ≠ 5 := by
  refine ⟨by decide, by decide⟩

/-- C5 (amended): for the document with summary `a b c` and one section
with content `d e`, the statistics are 1 section, `total_words = 2`
(section words only; summary words are not counted),
`total_characters = 5 + 3 = 8`, and `hierarchy_depth = 2`; in general the
hierarchy depth bounds every section level and is either 0 or one of the
levels (so it is the maximum level, 0 when there are none). -/
theorem claim5_statistics :
    computeStatistics statsSampleDoc =
      { total_sections := 1, total_words := 2, total_characters := 8,
        hierarchy_depth := 2 } ∧
    (∀ d : PDoc, ∀ e ∈ d.section_hierarchy,
      e.level ≤ (computeStatistics d).hierarchy_depth) ∧
    (∀ d : PDoc, (computeStatistics d).hierarchy_depth = 0 ∨
      (computeStatistics d).hierarchy_depth ∈
        d.section_hierarchy.map HierEntry.level) ∧
    (computeStatistics initDoc).hierarchy_depth = 0 := by
  refine ⟨by decide, ?_, ?_, by decide⟩
  · intro d e he
    exact le_foldr_max _ e.level (List.mem_map.mpr ⟨e, he, rfl⟩)
  · intro d
    exact foldr_max_mem _

/-- C5 witness: the general depth bound applied to the concrete
document. -/
theorem claim5_witness :
    (2 : Nat) ≤ (computeStatistics statsSampleDoc).hierarchy_depth :=
  claim5_statistics.2.1 statsSampleDoc
    { key := "sec", title := "Sec", level := 2 } (by decide)

/-! ### Claim C6 -/

/-- C6 counterexample: in `---`, `Alpha`, `Beta`, `Some prose.` the line
`Alpha` satisfies the inferred-heading heuristic (seen with its lookahead
context), yet the parsed hierarchy records only `Beta`: the heading
`Alpha` was open with an empty content buffer when `Beta` arrived, the
flush guard `elif current_section and current_content` failed, and no
entry was appended for it. -/
theorem claim6_counterexample :
    inferredHeadingCheck "Alpha" ["Beta", "Some prose."] = some true ∧
    (parse_markdown_content "---\nAlpha\nBeta\nSome prose.").map
      (fun d => d.section_hierarchy.map (fun e => e.title)) = some ["Beta"] := by
  refine ⟨by decide, by decide⟩

/-- C6 (amended): `section_hierarchy` is an ordered log of the headings
that were flushed with nonempty buffered content: the attachment routine
unconditionally appends exactly one `{key, title, level}` entry with
`key = normalize(title)`, in document order and regardless of key
collisions; but a recognized heading whose buffer is still empty when the
next heading or the end of input arrives (or whose title is literally
`summary`) is never attached and leaves no entry. -/
theorem claim6_hierarchy_log :
    (∀ (d : PDoc) (t : String) (c : List String) (lvl : Nat),
      (add_section_to_document d t c lvl).section_hierarchy =
        d.section_hierarchy ++
          [{ key := normalize_section_key t, title := t, level := lvl }]) ∧
    ∀ (content : String) (doc : PDoc),
      parse_markdown_content content = some doc →
        ∀ e ∈ doc.section_hierarchy, e.key = normalize_section_key e.title := by
  refine ⟨add_section_hierarchy, ?_⟩
  refine parse_inv
    (P := fun d => ∀ e ∈ d.section_hierarchy, e.key = normalize_section_key e.title)
    ?_ ?_ ?_ ?_
  · intro d l hp
    rw [metadataUpdate_hierarchy]
    exact hp
  · intro d s hp
    exact hp
  · intro d t c hp
    rw [add_section_hierarchy]
    intro e he
    rcases List.mem_append.mp he with he2 | he2
    · exact hp e he2
    · rcases List.mem_singleton.mp he2 with rfl
      rfl
  · intro e he
    simp [initDoc] at he

/-- C6 witness: the key/title relation of the theorem applied to the
concrete sample parse. -/
theorem claim6_witness :
    ∀ e ∈ sampleDoc.section_hierarchy, e.key = normalize_section_key e.title :=
  claim6_hierarchy_log.2 sampleContent sampleDoc sample_parse

/-! ### Claim C7 -/

set_option maxRecDepth 4096

/-- 80 `x`, the match `mala`, 80 `y`: both sides offer more than 75 but
fewer than 150 characters of context. -/
def highlightSampleText : String :=
  String.mk (List.replicate 80 'x') ++ "mala" ++ String.mk (List.replicate 80 'y')

/-- C7 counterexample: the text has 80 `x` before the first match, all
within 150 characters, yet the highlighted excerpt keeps only 75 of them:
the context window is `context_chars // 2 = 75` per side, not the claimed
150. -/
theorem claim7_counterexample :
    highlightSampleText.toList.count 'x' = 80 ∧
    (highlight_text highlightSampleText "mala" 150).toList.count 'x' = 75 := by
  refine ⟨by decide, by decide⟩

/-- C7 (amended): highlighting returns an excerpt with 75 characters of
context (`context_chars // 2` with the default `context_chars = 150`) on
each side of the first match, ellipsis-marked at an end that does not
coincide with a text boundary, with every match occurrence wrapped in
emphasis markers; searching `mala` inside `malaria` text yields
`**mala**ria`. -/
theorem claim7_highlight :
    highlight_text highlightSampleText "mala" 150 =
      "..." ++ String.mk (List.replicate 75 'x') ++ "**mala**" ++
        String.mk (List.replicate 75 'y') ++ "..." ∧
    highlight_text "Some malaria is a disease here." "mala" 150 =
      "Some **mala**ria is a disease here." := by
  refine ⟨by decide, by decide⟩

/-! ### Claim C8 -/

/-- A minimal document whose promoted `query` field is `Q`. -/
def dupQueryDoc : PDoc := { initDoc with query := some "Q" }

/-- C8 counterexample: with two stored documents sharing the query `Q`,
the overwrite mode deletes only the single document returned by the
duplicate finder (`find_one` returns at most one match), so the stored
duplicate with identity 2 survives — not every duplicate is deleted. -/
theorem claim8_counterexample :
    store_wikipedia_document
      [{ id := 1, content := dupQueryDoc, updated_at := none },
       { id := 2, content := dupQueryDoc, updated_at := none }]
      dupQueryDoc true .overwrite 99 3 =
      ([{ id := 2, content := dupQueryDoc, updated_at := none },
        { id := 3, content := dupQueryDoc, updated_at := none }], some 3) ∧
    ((store_wikipedia_document
      [{ id := 1, content := dupQueryDoc, updated_at := none },
       { id := 2, content := dupQueryDoc, updated_at := none }]
      dupQueryDoc true .overwrite 99 3).1.any
        (fun d => d.id == 2 && d.content.query == some "Q")) = true := by
  refine ⟨by decide, by decide⟩

/-- C8 (amended): when the duplicate finder returns a stored document
(at most one: the first `query` match, else the first `url` match),
`skip` leaves the store unchanged and returns no identity; `update`
replaces that document in place, preserving every stored identity,
setting its content to the new document and its `updated_at`, and returns
the preserved identity; non-interactive calls behave like `update`
whatever the prompt answer would have been; `overwrite` deletes the found
document (other same-query documents may survive) and inserts the new
document under the fresh identity.  When the finder returns nothing, the
document is inserted as new in every mode. -/
theorem claim8_upsert_modes (store : List StoredDoc) (doc : PDoc) (now fid : Nat) :
    (∀ e : StoredDoc, find_duplicate_documents store doc = [e] →
      store_wikipedia_document store doc true .skip now fid = (store, none) ∧
      store_wikipedia_document store doc true .update now fid =
        (replaceById store e.id doc now, some e.id) ∧
      (∀ a : DupAction, store_wikipedia_document store doc false a now fid =
        (replaceById store e.id doc now, some e.id)) ∧
      (replaceById store e.id doc now).map (fun d => d.id) =
        store.map (fun d => d.id) ∧
      (∀ d ∈ replaceById store e.id doc now, d.id = e.id →
        d.content = doc ∧ d.updated_at = some now) ∧
      store_wikipedia_document store doc true .overwrite now fid =
        (deleteById store e.id ++
          [{ id := fid, content := doc, updated_at := none }], some fid)) ∧
    (find_duplicate_documents store doc = [] →
      ∀ (i : Bool) (a : DupAction),
        store_wikipedia_document store doc i a now fid =
          (store ++ [{ id := fid, content := doc, updated_at := none }], some fid)) := by
  constructor
  · intro e he
    refine ⟨?_, ?_, ?_, ?_, ?_, ?_⟩
    · simp [store_wikipedia_document, he]
    · simp [store_wikipedia_document, he]
    · intro a
      simp [store_wikipedia_document, he]
    · unfold replaceById
      rw [List.map_map]
      refine List.map_congr_left ?_
      intro d _
      by_cases hd : d.id = e.id
      · rw [Function.comp_apply, if_pos hd]
      · rw [Function.comp_apply, if_neg hd]
    · intro d hd hid
      unfold replaceById at hd
      rcases List.mem_map.mp hd with ⟨q, hq, hqd⟩
      by_cases hq2 : q.id = e.id
      · rw [if_pos hq2] at hqd
        rw [← hqd]
        exact ⟨rfl, rfl⟩
      · rw [if_neg hq2] at hqd
        rw [← hqd] at hid
        exact absurd hid hq2
    · simp [store_wikipedia_document, he, List.foldl]
  · intro he i a
    cases i <;> simp [store_wikipedia_document, he]

/-- A store holding one document with query `Q` and identity 1. -/
def dupStore : List StoredDoc :=
  [{ id := 1, content := dupQueryDoc, updated_at := none }]

/-- C8 witness: the theorem applied to a concrete one-element store and
to the empty store. -/
theorem claim8_witness :
    store_wikipedia_document dupStore dupQueryDoc true .skip 5 2 =
      (dupStore, none) ∧
    store_wikipedia_document [] dupQueryDoc false .skip 5 2 =
      ([{ id := 2, content := dupQueryDoc, updated_at := none }], some 2) := by
  refine ⟨((claim8_upsert_modes dupStore dupQueryDoc 5 2).1
    { id := 1, content := dupQueryDoc, updated_at := none } (by decide)).1, ?_⟩
  exact (claim8_upsert_modes [] dupQueryDoc 5 2).2 (by decide) false .skip

/-! ### Claim C9 -/

lemma parseStep_isSome (l : String) (rest : List String) (st : ParseState) :
    (parseStep l rest st).isSome = true := by
  simp only [parseStep]
  repeat' split
  all_goals try rfl
  next heq =>
    have h := inferredHeadingCheck_isSome (pyStrip l) rest
    rw [heq] at h
    simp at h

lemma parseLoop_isSome :
    ∀ (lines : List String) (st : ParseState),
      (parseLoop lines st).isSome = true := by
  intro lines
  induction lines with
  | nil => intro st; rfl
  | cons l rest ih =>
    intro st
    unfold parseLoop
    cases hstep : parseStep l rest st with
    | none =>
      have h := parseStep_isSome l rest st
      rw [hstep] at h
      simp at h
    | some st2 => exact ih st2

/-- C9: `parse_markdown_content` is total — it returns a document for
every input string.  In the embedding every lookahead access is a
fallible list access whose failure propagates to a `none` result, so this
theorem states that the bound guards of the source cover every access. -/
theorem claim9_parse_total (content : String) :
    (parse_markdown_content content).isSome = true := by
  unfold parse_markdown_content
  cases hloop : parseLoop (splitLines content) initState with
  | none =>
    have h := parseLoop_isSome (splitLines content) initState
    rw [hloop] at h
    simp at h
  | some st => rfl

/-! ### Claim C10 -/

/-- The per-line document effect of the loop when no separator has been
seen: hash lines are skipped, `**`/colon lines update the metadata,
everything else is skipped. -/
def metaStepLine (d : PDoc) (l : String) : PDoc :=
  let line := pyStrip l
  if strStartsWith line "#" then d
  else if strStartsWith line "**" && strContainsChar line ':' then
    metadataUpdate d line
  else d

lemma metaStepLine_parts (d : PDoc) (l : String) :
    (metaStepLine d l).summary = d.summary ∧
    (metaStepLine d l).sections = d.sections ∧
    (metaStepLine d l).section_hierarchy = d.section_hierarchy := by
  simp only [metaStepLine]
  by_cases h1 : strStartsWith (pyStrip l) "#" = true
  · rw [if_pos h1]
    exact ⟨rfl, rfl, rfl⟩
  · rw [if_neg h1]
    by_cases h2 :
        (strStartsWith (pyStrip l) "**" && strContainsChar (pyStrip l) ':') = true
    · rw [if_pos h2]
      exact ⟨metadataUpdate_summary d _, metadataUpdate_sections d _,
        metadataUpdate_hierarchy d _⟩
    · rw [if_neg h2]
      exact ⟨rfl, rfl, rfl⟩

lemma foldl_metaStepLine_parts (L : List String) (d : PDoc) :
    (L.foldl metaStepLine d).summary = d.summary ∧
    (L.foldl metaStepLine d).sections = d.sections ∧
    (L.foldl metaStepLine d).section_hierarchy = d.section_hierarchy := by
  induction L generalizing d with
  | nil => exact ⟨rfl, rfl, rfl⟩
  | cons l L ih =>
    simp only [List.foldl]
    obtain ⟨h1, h2, h3⟩ := ih (metaStepLine d l)
    obtain ⟨g1, g2, g3⟩ := metaStepLine_parts d l
    exact ⟨h1.trans g1, h2.trans g2, h3.trans g3⟩

lemma parseLoop_noSep :
    ∀ (lines : List String) (st : ParseState),
      (∀ l ∈ lines, pyStrip l ≠ "---") →
      st.separator_found = false →
      parseLoop lines st = some { st with doc := lines.foldl metaStepLine st.doc } := by
  intro lines
  induction lines with
  | nil =>
    intro st _ _
    rfl
  | cons l rest ih =>
    intro st hno hsep
    have hl : pyStrip l ≠ "---" := hno l (List.mem_cons_self _ _)
    have hrest : ∀ x ∈ rest, pyStrip x ≠ "---" :=
      fun x hx => hno x (List.mem_cons_of_mem _ hx)
    have hstep : parseStep l rest st = some { st with doc := metaStepLine st.doc l } := by
      simp only [parseStep, metaStepLine]
      by_cases h1 : strStartsWith (pyStrip l) "#" = true
      · rw [if_pos h1, if_pos h1]
      · rw [if_neg h1, if_neg h1, if_neg hl, hsep]
        by_cases h2 :
            (strStartsWith (pyStrip l) "**" && strContainsChar (pyStrip l) ':') = true
        · simp [h2]
        · simp [h2]
          rw [← hsep]
    have hred : parseLoop (l :: rest) st =
        parseLoop rest { st with doc := metaStepLine st.doc l } := by
      have hone : parseLoop (l :: rest) st =
          (match parseStep l rest st with
           | none => none
           | some st2 => parseLoop rest st2) := rfl
      rw [hone, hstep]
    rw [hred, ih { st with doc := metaStepLine st.doc l } hrest hsep]
    rfl

/-- C10: when no input line strips to exactly `---`, the parse yields an
empty summary and empty `sections` and `section_hierarchy` — the whole
body is skipped — while the document equals the pure metadata scan of all
lines, which still captures every `**Key:** Value` line (with well-known
keys promoted), since metadata parsing is active while no separator has
been seen. -/
theorem claim10_no_separator (content : String)
    (h : ∀ l ∈ splitLines content, pyStrip l ≠ "---") :
    parse_markdown_content content =
      some ((splitLines content).foldl metaStepLine initDoc) ∧
    ((splitLines content).foldl metaStepLine initDoc).summary = "" ∧
    ((splitLines content).foldl metaStepLine initDoc).sections = [] ∧
    ((splitLines content).foldl metaStepLine initDoc).section_hierarchy = [] := by
  obtain ⟨h1, h2, h3⟩ := foldl_metaStepLine_parts (splitLines content) initDoc
  refine ⟨?_, h1, h2, h3⟩
  unfold parse_markdown_content
  rw [parseLoop_noSep (splitLines content) initState h rfl]
  rfl

/-- Input with a title line, a metadata line and body text but no
separator line. -/
def noSepContent : String := "# Title\n**Query:** AI\nSome body text."

/-- C10 witness: the theorem applied to the concrete separator-free
input; the metadata line is captured and promoted, the body is skipped. -/
theorem claim10_witness :
    parse_markdown_content noSepContent =
      some ((splitLines noSepContent).foldl metaStepLine initDoc) ∧
    ((splitLines noSepContent).foldl metaStepLine initDoc).metadata
      = [("query", "AI")] ∧
    ((splitLines noSepContent).foldl metaStepLine initDoc).query = some "AI" ∧
    ((splitLines noSepContent).foldl metaStepLine initDoc).sections = [] := by
  refine ⟨(claim10_no_separator noSepContent (by decide)).1,
    by decide, by decide, by decide⟩

end WikiModel
